import Mathlib

/-!
Shallow embedding of the configuration-resolution layer of `src-run/srw-gulp`
(src/config-builder.babel.js and src/config-fetcher.babel.js), together with
theorems settling the specification claims about it.

Conventions of the embedding:
* JSON-like runtime values are the mutually inductive `Value`/`VList`/`VFields`
  (string, integer number, array, object).  `null`, booleans and fractional
  numbers never occur in the behaviours under study and are omitted.
* JavaScript truthiness is `truthy` (note: an empty array or empty object is
  truthy in JavaScript).
* A thrown JavaScript `Error` is `Except.error msg` with the exact message the
  source builds.
* The mutually recursive placeholder-resolution functions
  (`lookup` / `resolveReplacements` / `resolveReplacementsForScalar` and the
  object/array walkers) are one fuel-indexed interpreter `run` over the call
  descriptor `RCall`; fuel decreases on every internal call, and a result of
  `none` means the computation does not complete within the given fuel.  A
  computation that completes for no amount of fuel is the embedding of the
  source's unbounded recursion (in practice a stack overflow).
* The source mutates nested arrays/objects in place while expanding
  placeholders; the embedding returns the expanded value functionally.  No
  claim below depends on observing the mutation.
-/

mutual
/-- JSON-like runtime values: strings, (integer) numbers, arrays, objects. -/
inductive Value where
  | vStr (s : String)
  | vNum (n : Int)
  | vArr (elems : VList)
  | vObj (fields : VFields)

/-- A JavaScript array of values. -/
inductive VList where
  | nil
  | cons (head : Value) (tail : VList)

/-- The own properties of a JavaScript object, in insertion order. -/
inductive VFields where
  | nil
  | cons (key : String) (val : Value) (tail : VFields)
end

/-- JavaScript truthiness of a `Value`.  Strings are falsy exactly when empty,
numbers exactly when zero; every array and object (empty included) is truthy. -/
def truthy : Value → Bool
  | .vStr s => !s.isEmpty
  | .vNum n => n != 0
  | .vArr _ => true
  | .vObj _ => true

/-- Property lookup among an object's own fields (first match). -/
def getField : VFields → String → Option Value
  | .nil, _ => none
  | .cons k v rest, key => if k = key then some v else getField rest key

/-- Length of a `VList`. -/
def vlistLength : VList → Nat
  | .nil => 0
  | .cons _ tl => vlistLength tl + 1

/-- Element of a `VList` at an index. -/
def vlistGet : VList → Nat → Option Value
  | .nil, _ => none
  | .cons v _, 0 => some v
  | .cons _ tl, n + 1 => vlistGet tl n

/-- JavaScript property access `val[seg]` for the segment strings that arise in
dotted-path traversal: field access on objects; `length` and canonical decimal
indices on arrays and strings; `undefined` (here `none`) everywhere else. -/
def jsIndex (v : Value) (seg : String) : Option Value :=
  match v with
  | .vObj fields => getField fields seg
  | .vArr xs =>
    if seg = "length" then some (.vNum (vlistLength xs))
    else
      match seg.toNat? with
      | some n => if toString n = seg then vlistGet xs n else none
      | none => none
  | .vStr s =>
    if seg = "length" then some (.vNum s.length)
    else
      match seg.toNat? with
      | some n =>
        if toString n = seg then (s.data.get? n).map (fun c => .vStr (String.mk [c]))
        else none
      | none => none
  | .vNum _ => none

/-- `String.prototype.split('.')` on the character list of a dotted path. -/
def splitDot : List Char → List (List Char)
  | [] => [[]]
  | c :: cs =>
    match splitDot cs with
    | s :: ss => if c = '.' then [] :: s :: ss else (c :: s) :: ss
    | [] => [[c]]

/-- The message of the `Error` that `resolveValue` throws, exactly as the
source concatenates it. -/
def resolutionErrorMsg (idx frag : String) : String :=
  "Resolution error for index (" ++ idx ++ ") at fragment " ++ frag

/-- The segment-by-segment traversal inside `resolveValue`: walk the remaining
fragments, throwing as soon as the value `val[i]` is absent or falsy. -/
def resolveValueGo (idx : String) : List (List Char) → Value → Except String Value
  | [], val => .ok val
  | seg :: rest, val =>
    match jsIndex val (String.mk seg) with
    | some v =>
      if truthy v then resolveValueGo idx rest v
      else .error (resolutionErrorMsg idx (String.mk seg))
    | none => .error (resolutionErrorMsg idx (String.mk seg))

/-- `resolveValue(idx)` of src/config-builder.babel.js: split the index on `.`
and fold property access over the configuration object, throwing a resolution
error at the first absent-or-falsy intermediate value. -/
def resolveValue (tree : Value) (idx : String) : Except String Value :=
  resolveValueGo idx (splitDot idx.data) tree

/-- Characters admitted inside a placeholder path: the class `[a-z.-]` with the
case-insensitive flag, i.e. letters, `.` and `-` (no digits). -/
def isPathChar (c : Char) : Bool :=
  ('a' ≤ c && c ≤ 'z') || ('A' ≤ c && c ≤ 'Z') || c = '.' || c = '-'

/-- Attempt to read a placeholder path at the very start of `cs`, which is the
text following a `"${"`: a nonempty run of path characters then `'}'`. -/
def matchPH (cs : List Char) : Option (List Char) :=
  let run := cs.takeWhile isPathChar
  if run.isEmpty then none
  else
    match cs.drop run.length with
    | '}' :: _ => some run
    | _ => none

/-- First match of the placeholder pattern in the string, as the regular
expression `new RegExp('\\$\x7b([a-z\x5c.-]+)\x7d', 'i').exec(parsed)` finds it:
scan left to right, and at each `"${"` try to read a path followed by `'}'`.
Returns the captured path. -/
def findPH : List Char → Option (List Char)
  | [] => none
  | c :: cs =>
    match c, cs with
    | '$', '{' :: rest =>
      match matchPH rest with
      | some run => some run
      | none => findPH cs
    | _, _ => findPH cs

/-- The full matched token `"${" ++ path ++ "}"` (what `search[0]` holds). -/
def phToken (path : List Char) : List Char :=
  '$' :: '{' :: path ++ ['}']

/-- Global (non-overlapping, left-to-right) literal replacement, the effect of
`parsed.replace(new RegExp(regexQuote(token), 'g'), replacement)`.  The `skip`
counter consumes the remainder of a just-matched occurrence. -/
def replaceAllGo (pat rep : List Char) : List Char → Nat → List Char
  | [], _ => []
  | _ :: cs, skip + 1 => replaceAllGo pat rep cs skip
  | c :: cs, 0 =>
    if pat.isPrefixOf (c :: cs) then rep ++ replaceAllGo pat rep cs (pat.length - 1)
    else c :: replaceAllGo pat rep cs 0

/-- Replace every occurrence of `pat` in `s` by `rep`. -/
def replaceAll (pat rep s : List Char) : List Char :=
  replaceAllGo pat rep s 0

mutual
/-- JavaScript string coercion of a `Value` (`val.toString()` / `'' + val`). -/
def jsToString : Value → String
  | .vStr s => s
  | .vNum n => toString n
  | .vArr xs => jsToStringElems xs
  | .vObj _ => "[object Object]"

/-- `Array.prototype.toString`: elements joined with `,`. -/
def jsToStringElems : VList → String
  | .nil => ""
  | .cons v .nil => jsToString v
  | .cons v tl => jsToString v ++ "," ++ jsToStringElems tl
end

/-- A result of running a piece of the resolution pipeline: `none` when the
computation does not complete within the available fuel, `some (.error m)` when
it throws, `some (.ok a)` when it returns. -/
abbrev JsResult (α : Type) := Option (Except String α)

/-- Call descriptors for the mutually recursive resolution functions of
src/config-builder.babel.js.  `look` is `lookup`, `repl` is
`resolveReplacements`, `replObj` is `resolveReplacementsForObject` (which, due
to `Array instanceof Object`, also receives every array), `replFields` /
`replElems` walk an object's properties / an array's elements inside it,
`scalar` is `resolveReplacementsForScalar`, and `loop` is the `while` loop of
the scalar resolver with its remaining admissible iterations and the current
`parsed` string. -/
inductive RCall where
  | look (idx : String)
  | repl (v : Value)
  | replObj (v : Value)
  | replFields (fs : VFields)
  | replElems (vs : VList)
  | scalar (s : String)
  | loop (steps : Nat) (parsed : String)

/-- The scalar resolver's `while` loop runs its body at most 21 times: the
guard `i++ > maxIterations` with `maxIterations = 20` lets indices 0..20
through. -/
def loopSteps : Nat := 21

/-- Fuel-indexed interpreter for the resolution pipeline, one constructor of
`RCall` per source function.  Fuel decreases on every internal call, so `none`
(out of fuel) for every fuel models the source's unbounded recursion.

Source correspondences, line numbers from src/config-builder.babel.js:
* `look idx` — `lookup` (169-173): `resolveReplacements(resolveValue(idx))`;
  a throw from `resolveValue` propagates (there is no catch anywhere in the
  pipeline).
* `repl v` — `resolveReplacements` (203-213): `val instanceof Object` is true
  for arrays as well, so both objects and arrays take the object branch; the
  `instanceof Array` branch is unreachable; everything else is stringified by
  the scalar resolver.
* `replObj v` — `resolveReplacementsForObject` (266-280): walks the own
  properties (for an array: its elements; its `length` property is a number
  and passes through unchanged), recursing on object/array-valued properties,
  scalar-resolving string properties, leaving others untouched.
* `scalar s` — `resolveReplacementsForScalar` (222-244) after
  `val.toString()`; `loop steps parsed` is its `while` with the remaining
  admissible body executions.  On a match the inner `lookup` runs; if its
  result is truthy, all occurrences of the matched token are replaced
  (`search.length < 2` never holds: the pattern has one capture group). -/
def run (tree : Value) : Nat → RCall → JsResult Value
  | 0, _ => none
  | f + 1, c =>
    match c with
    | .look idx =>
      match resolveValue tree idx with
      | .error m => some (.error m)
      | .ok v => run tree f (.repl v)
    | .repl v =>
      match v with
      | .vObj fields => run tree f (.replObj (.vObj fields))
      | .vArr xs => run tree f (.replObj (.vArr xs))
      | v => run tree f (.scalar (jsToString v))
    | .replObj v =>
      match v with
      | .vObj fields => run tree f (.replFields fields)
      | .vArr xs => run tree f (.replElems xs)
      | v => some (.ok v)
    | .replFields .nil => some (.ok (.vObj .nil))
    | .replFields (.cons k v rest) =>
      match (match v with
             | .vObj fields => run tree f (.replObj (.vObj fields))
             | .vArr xs => run tree f (.replObj (.vArr xs))
             | .vStr s => run tree f (.scalar s)
             | w => some (.ok w)) with
      | none => none
      | some (.error m) => some (.error m)
      | some (.ok hv) =>
        match run tree f (.replFields rest) with
        | none => none
        | some (.error m) => some (.error m)
        | some (.ok (.vObj rest')) => some (.ok (.vObj (.cons k hv rest')))
        | some (.ok other) => some (.ok other)
    | .replElems .nil => some (.ok (.vArr .nil))
    | .replElems (.cons v rest) =>
      match (match v with
             | .vObj fields => run tree f (.replObj (.vObj fields))
             | .vArr xs => run tree f (.replObj (.vArr xs))
             | .vStr s => run tree f (.scalar s)
             | w => some (.ok w)) with
      | none => none
      | some (.error m) => some (.error m)
      | some (.ok hv) =>
        match run tree f (.replElems rest) with
        | none => none
        | some (.error m) => some (.error m)
        | some (.ok (.vArr rest')) => some (.ok (.vArr (.cons hv rest')))
        | some (.ok other) => some (.ok other)
    | .scalar s => run tree f (.loop loopSteps s)
    | .loop 0 parsed => some (.ok (.vStr parsed))
    | .loop (steps + 1) parsed =>
      match findPH parsed.data with
      | none => some (.ok (.vStr parsed))
      | some path =>
        match run tree f (.look (String.mk path)) with
        | none => none
        | some (.error m) => some (.error m)
        | some (.ok replace) =>
          let parsed' :=
            if truthy replace then
              String.mk (replaceAll (phToken path) (jsToString replace).data parsed.data)
            else parsed
          run tree f (.loop steps parsed')

/-- `lookup(idx)` of src/config-builder.babel.js (169-173), fuel-indexed. -/
def lookup (tree : Value) (fuel : Nat) (idx : String) : JsResult Value :=
  run tree fuel (.look idx)

/-- DecorationOptions: the recognized `pre`/`post` fields of the `opt`
argument.  `none` for a field models the property being absent/undefined. -/
structure DecOpts where
  pre : Option String
  post : Option String
deriving DecidableEq

/-- The truthiness test `opt && opt.pre`: the whole options argument must be
present and the field present and nonempty. -/
def optPre : Option DecOpts → Option String
  | some o =>
    match o.pre with
    | some p => if p.isEmpty then none else some p
    | none => none
  | none => none

/-- The truthiness test `opt && opt.post`. -/
def optPost : Option DecOpts → Option String
  | some o =>
    match o.post with
    | some q => if q.isEmpty then none else some q
    | none => none
  | none => none

/-- `applyOptionsOnScalar(val, opt)` (src/config-builder.babel.js 337-347):
prepend a truthy `opt.pre`, append a truthy `opt.post`; each concatenation
coerces the current value to a string. -/
def applyOptionsOnScalar (val : Value) (opt : Option DecOpts) : Value :=
  let v1 :=
    match optPre opt with
    | some p => Value.vStr (p ++ jsToString val)
    | none => val
  match optPost opt with
  | some q => Value.vStr (jsToString v1 ++ q)
  | none => v1

/-- The `val.map(...)` of `applyOptionsOnArray` (357-361): every element is
coerced to a string by `v.toString()` and then decorated independently. -/
def applyOptionsOnElems (xs : VList) (opt : Option DecOpts) : VList :=
  match xs with
  | .nil => .nil
  | .cons v rest =>
    .cons (applyOptionsOnScalar (.vStr (jsToString v)) opt) (applyOptionsOnElems rest opt)

/-- `applyOptions(val, opt)` (321-327): arrays are decorated elementwise,
everything else as a scalar. -/
def applyOptions (val : Value) (opt : Option DecOpts) : Value :=
  match val with
  | .vArr xs => .vArr (applyOptionsOnElems xs opt)
  | v => applyOptionsOnScalar v opt

/-- `JSON.stringify` of a string: quoted, with `"` and `\` escaped.  (Control
characters would also be escaped; none occurs in the strings under study.) -/
def jsonStringifyStr (s : String) : String :=
  "\"" ++ String.mk (s.data.flatMap fun c =>
    if c = '"' || c = '\\' then ['\\', c] else [c]) ++ "\""

/-- `JSON.stringify` of the options argument.  `JSON.stringify(undefined)` is
`undefined`, which the `+` concatenation in `buildCacheIndex` coerces to the
text `"undefined"`; for an options object, fields with undefined values are
omitted and the others appear in insertion order (`pre` then `post`, the order
the call sites write). -/
def jsonOfOpt : Option DecOpts → String
  | none => "undefined"
  | some o =>
    "\x7b" ++
      String.intercalate ","
        ((match o.pre with
          | some p => ["\"pre\":" ++ jsonStringifyStr p]
          | none => []) ++
         (match o.post with
          | some q => ["\"post\":" ++ jsonStringifyStr q]
          | none => [])) ++ "\x7d"

/-- A word character in the sense of the regular expression class `\w`. -/
def isWordChar (c : Char) : Bool :=
  c.isAlphanum || c = '_'

/-- `key.replace(/\W/g, '')`: strip every non-word character. -/
def stripNonWord (s : String) : String :=
  String.mk (s.data.filter isWordChar)

/-- `buildCacheIndex(idx, opt)` (303-311): concatenate `'cache'` with, for each
positional argument, `'__' + position + '_' + JSON.stringify(argument)`, then
strip all non-word characters. -/
def buildCacheIndex (idx : String) (opt : Option DecOpts) : String :=
  stripNonWord ("cache" ++ "__0_" ++ jsonStringifyStr idx ++ "__1_" ++ jsonOfOpt opt)

/-- The memoization store `this.configCached`, as the list of its assigned
(key, value) bindings, most recent first. -/
abbrev Cache := List (String × Value)

/-- Read `this.configCached[key]`. -/
def cacheGet : Cache → String → Option Value
  | [], _ => none
  | (k, v) :: rest, key => if k = key then some v else cacheGet rest key

/-- `lookupCachedValue(idx, opt)` (139-147): a stored but falsy value counts as
a miss (`if (this.configCached[key])`). -/
def lookupCachedValue (cache : Cache) (idx : String) (opt : Option DecOpts) : Option Value :=
  match cacheGet cache (buildCacheIndex idx opt) with
  | some v => if truthy v then some v else none
  | none => none

/-- `assignCachedValue(idx, opt, val)` (156-160): assignment to the key, here a
prepended binding (reads take the most recent one). -/
def assignCachedValue (cache : Cache) (idx : String) (opt : Option DecOpts) (val : Value) : Cache :=
  (buildCacheIndex idx opt, val) :: cache

/-- `buildIndex(ctx, idx)` (290-296): prefix a truthy context. -/
def buildIndex (ctx idx : String) : String :=
  if ctx.isEmpty then idx else ctx ++ "." ++ idx

/-- `ConfigBuilder.value(ctx, idx, opt)` (57-73): consult the cache, otherwise
look the index up, decorate it, store it.  Returns the produced value together
with the updated cache (the mutated `this.configCached`). -/
def value (tree : Value) (cache : Cache) (fuel : Nat) (ctx idx : String)
    (opt : Option DecOpts) : JsResult (Value × Cache) :=
  let idx := buildIndex ctx idx
  match lookupCachedValue cache idx opt with
  | some v => some (.ok (v, cache))
  | none =>
    match run tree fuel (.look idx) with
    | none => none
    | some (.error m) => some (.error m)
    | some (.ok v) =>
      let v := applyOptions v opt
      some (.ok (v, assignCachedValue cache idx opt v))

/-- The string coercion performed by `value + this.value(ctx, idx)` in `build`:
an accumulator of `none` is the still-undefined `let value`. -/
def jsAdd (acc : Option String) (v : Value) : String :=
  (match acc with
   | none => "undefined"
   | some s => s) ++ jsToString v

/-- The `for (let idx of indexes)` loop of `ConfigBuilder.build` (38-46),
threading the accumulator and the cache. -/
def buildGo (tree : Value) (fuel : Nat) (ctx : String) :
    Cache → Option String → List String → JsResult (Option String × Cache)
  | cache, acc, [] => some (.ok (acc, cache))
  | cache, acc, idx :: rest =>
    match value tree cache fuel ctx idx none with
    | none => none
    | some (.error m) => some (.error m)
    | some (.ok (v, cache')) => buildGo tree fuel ctx cache' (some (jsAdd acc v)) rest

/-- `ConfigBuilder.build(ctx, ...indexes)` (38-46): concatenate the values of
the indexes onto an initially undefined accumulator.  A result of
`(none, cache)` is the `undefined` returned for an empty index list. -/
def build (tree : Value) (cache : Cache) (fuel : Nat) (ctx : String)
    (idxs : List String) : JsResult (Option String × Cache) :=
  buildGo tree fuel ctx cache none idxs

/-- Reference accumulation for `build`, starting from an explicit string
accumulator instead of `undefined`: the concatenation, with JavaScript string
coercion, of the values resolved for each key in order. -/
def concatResolved (tree : Value) (fuel : Nat) (ctx : String) :
    Cache → String → List String → JsResult (String × Cache)
  | cache, acc, [] => some (.ok (acc, cache))
  | cache, acc, idx :: rest =>
    match value tree cache fuel ctx idx none with
    | none => none
    | some (.error m) => some (.error m)
    | some (.ok (v, cache')) =>
      concatResolved tree fuel ctx cache' (acc ++ jsToString v) rest

/-- What `fs.statSync` reports when it does not throw. -/
inductive FileStat where
  | isFile
  | notFile
deriving DecidableEq

/-- The file system as seen by `loadConfig`: `stat f = none` models
`fs.statSync(f)` throwing (e.g. a missing path), `read f = none` models
`fs.readFileSync(f)` throwing. -/
structure FileSys where
  stat : String → Option FileStat
  read : String → Option String

/-- The calls the constructor and `loadConfig` make on the injected logger, in
order. -/
inductive LogEvent where
  | info (context file : String)
  | error (context file : String)
  | emergency
deriving DecidableEq

/-- `this.configFileDefault` (25). -/
def configFileDefault : String := "./.gulp/default-config.json"

/-- The conventional path substituted for a falsy or non-regular-file argument
(85). -/
def conventionalPath : String := "./.gulp.json"

/-- `readAndParseConfig(file)` (125-129): read then `JSON.parse`; either step
may throw.  The parser is a parameter (it is the JavaScript built-in). -/
def readAndParseConfig (fsys : FileSys) (parse : String → Option Value)
    (file : String) : Option Value :=
  (fsys.read file).bind parse

/-- `loadConfigFile(file, context)` (107-116): on success, the parsed tree
becomes `this.configObject` and an info line is logged; any throw is caught and
logged as an error.  Returns (succeeded, new config if any, log event). -/
def loadConfigFile (fsys : FileSys) (parse : String → Option Value)
    (file context : String) : Bool × Option Value × LogEvent :=
  match readAndParseConfig fsys parse file with
  | some cfg => (true, some cfg, .info context file)
  | none => (false, none, .error context file)

/-- Outcome of a completed (non-throwing) `loadConfig`: the final
`this.configObject` (initially `{}`) and the logger calls in order. -/
structure LoadResult where
  configObject : Value
  logs : List LogEvent

/-- The fallback chain run on the effective user file: try it, then the
bundled default, and log an emergency when both fail (88-96).
`this.configObject` keeps its prior state (initially `{}`) for every source
that fails. -/
def loadChain (fsys : FileSys) (parse : String → Option Value)
    (file : String) : LoadResult :=
  match loadConfigFile fsys parse file "user" with
  | (true, cfg, ev) => ⟨cfg.getD (.vObj .nil), [ev]⟩
  | (false, _, ev1) =>
    match loadConfigFile fsys parse configFileDefault "default" with
    | (true, cfg, ev2) => ⟨cfg.getD (.vObj .nil), [ev1, ev2]⟩
    | (false, _, ev2) => ⟨.vObj .nil, [ev1, ev2, .emergency]⟩

/-- `loadConfig(file)` (81-97).  `file = none` models the parameter default
`false` (no argument given).  For a present argument the guard calls
`fs.statSync(file)` *before* any fallback: if the stat throws (missing path),
that exception propagates out of `loadConfig` — the `Except.error` case.  Only
a stat that reports a non-regular file redirects to the conventional path. -/
def loadConfig (fsys : FileSys) (parse : String → Option Value)
    (file : Option String) : Except String LoadResult :=
  match file with
  | none => .ok (loadChain fsys parse conventionalPath)
  | some f =>
    match fsys.stat f with
    | none => .error ("ENOENT: no such file or directory, stat " ++ jsonStringifyStr f)
    | some .isFile => .ok (loadChain fsys parse f)
    | some .notFile => .ok (loadChain fsys parse conventionalPath)

/-- Outcome of calling a ConfigFetcher method: a returned value, or a thrown
`ReferenceError` for an identifier that no enclosing scope binds. -/
inductive MethodOutcome (α : Type) where
  | value (a : α)
  | referenceError (ident : String)
deriving DecidableEq

/-- The elements of a `VList` as a Lean list. -/
def vlistToList : VList → List Value
  | .nil => []
  | .cons v tl => v :: vlistToList tl

/-- The flattening performed by `Array.prototype.concat(...parts)`: array
arguments are spliced, scalars appended. -/
def jsConcatSpread (parts : List Value) : List Value :=
  parts.flatMap fun v =>
    match v with
    | .vArr xs => vlistToList xs
    | w => [w]

/-- Identifiers declared at module scope in src/config-fetcher.babel.js (the
single class declaration). -/
def fetcherModuleIdents : List String := ["ConfigFetcher"]

/-- The parameters of `ConfigFetcher.options(idx, opt)` (112-114). -/
def optionsParams : List String := ["idx", "opt"]

/-- The identifier whose value the body of `ConfigFetcher.options` spreads and
maps over: `idxs` — which is not one of its parameters. -/
def optionsMapIdent : String := "idxs"

/-- The parameters of `ConfigFetcher.globs(...indexes)` (78-80); `paths` and
`files` are identical up to the singular accessor they delegate to. -/
def globsParams : List String := ["indexes"]

/-- The identifier the body of `ConfigFetcher.globs` spreads and maps over:
its rest parameter `indexes`. -/
def globsMapIdent : String := "indexes"

/-- Evaluation of a plural-accessor body
`Array.prototype.concat(...IDENT.map(this.single.bind(this)))`: strict-mode
JavaScript first resolves `IDENT`; if no enclosing scope (parameters, module
scope) binds it, a `ReferenceError` is thrown before anything else runs.
Otherwise `IDENT` holds the rest-parameter list `argv`, and the result is the
flattened list of per-index resolutions. -/
def runPluralAccessor (params : List String) (mapIdent : String)
    (argv : List String) (single : String → Value) : MethodOutcome (List Value) :=
  if mapIdent ∈ params ++ fetcherModuleIdents then
    .value (jsConcatSpread (argv.map single))
  else
    .referenceError mapIdent

/-- `ConfigFetcher.options(idx, opt)` (112-114): its body maps over `idxs`. -/
def fetcherOptions (single : String → Value) (idx : String)
    (opt : Option DecOpts) : MethodOutcome (List Value) :=
  runPluralAccessor optionsParams optionsMapIdent [] single

/-- `ConfigFetcher.globs(...indexes)` (78-80): its body maps over its rest
parameter `indexes`. -/
def fetcherGlobs (single : String → Value) (indexes : List String) :
    MethodOutcome (List Value) :=
  runPluralAccessor globsParams globsMapIdent indexes single

/-- Modelled from the claim's words (amended): the values treated as falsy by
the traversal — empty strings and the number 0.  An empty array or empty
object is *not* falsy in JavaScript. -/
def specFalsy : Value → Bool
  | .vStr s => s.isEmpty
  | .vNum n => n == 0
  | .vArr _ => false
  | .vObj _ => false

/-- Modelled from the claim's words (amended): traverse the tree one dotted
segment at a time starting at the root; at a segment where the value is absent
or falsy, fail with an error naming the full path and the failing segment;
otherwise continue with the stored value. -/
def resolveValueSpecGo (idx : String) : List (List Char) → Value → Except String Value
  | [], v => .ok v
  | seg :: rest, v =>
    match jsIndex v (String.mk seg) with
    | none => .error (resolutionErrorMsg idx (String.mk seg))
    | some w =>
      if specFalsy w then .error (resolutionErrorMsg idx (String.mk seg))
      else resolveValueSpecGo idx rest w

/-- The claim-side lookup contract (amended form of claim C6). -/
def resolveValueSpec (tree : Value) (idx : String) : Except String Value :=
  resolveValueSpecGo idx (splitDot idx.data) tree

/-- The file `loadConfig` actually hands to the user-context load attempt once
`fs.statSync` has reported on the argument. -/
def effectiveFile (f : String) : FileStat → String
  | .isFile => f
  | .notFile => conventionalPath

/-- A file system on which every stat call throws (every path missing). -/
def fsys0 : FileSys := ⟨fun _ => none, fun _ => none⟩

/-- A file system on which every path stats as a regular file whose read
throws. -/
def fsys1 : FileSys := ⟨fun _ => some .isFile, fun _ => none⟩

/-- A parser on which every parse throws (standing in for `JSON.parse` on
invalid input). -/
def parse0 : String → Option Value := fun _ => none

/-- The tree `\x7ba: \x7bb: []\x7d\x7d` — the inner value is an empty
sequence. -/
def tree6 : Value := .vObj (.cons "a" (.vObj (.cons "b" (.vArr .nil) .nil)) .nil)

/-- The tree `\x7ba: "foo", b: "prefix-$\x7ba\x7d-suffix"\x7d` of claim C7. -/
def tree7a : Value :=
  .vObj (.cons "a" (.vStr "foo") (.cons "b" (.vStr "prefix-$\x7ba\x7d-suffix") .nil))

/-- The tree `\x7ba: "$\x7bb\x7d", b: "$\x7bc\x7d", c: "leaf"\x7d` of claim
C7. -/
def tree7b : Value :=
  .vObj (.cons "a" (.vStr "$\x7bb\x7d")
    (.cons "b" (.vStr "$\x7bc\x7d") (.cons "c" (.vStr "leaf") .nil)))

/-- The tree `\x7bb: "$\x7ba\x7d"\x7d` — a placeholder whose target path `a`
does not exist. -/
def treeC1 : Value := .vObj (.cons "b" (.vStr "$\x7ba\x7d") .nil)

/-- The cyclic tree `\x7ba: "$\x7bb\x7d", b: "$\x7ba\x7d"\x7d` of claim C2. -/
def cycTree : Value :=
  .vObj (.cons "a" (.vStr "$\x7bb\x7d") (.cons "b" (.vStr "$\x7ba\x7d") .nil))

/-- The tree `\x7ba: \x7bb: "x"\x7d\x7d` of claim C9. -/
def tree9 : Value := .vObj (.cons "a" (.vObj (.cons "b" (.vStr "x") .nil)) .nil)

/-- The cache state after the first resolution of `a.b` (no options) on
`tree9`. -/
def cache9 : Cache := [(buildCacheIndex "a.b" none, .vStr "x")]

/-- The tree `\x7bp: "v"\x7d` of the claim C3 counterexample. -/
def tree3 : Value := .vObj (.cons "p" (.vStr "v") .nil)

/-- Options `\x7bpre: "a"\x7d` and `\x7bpre: "a!"\x7d`: distinct, but their
serialized forms differ only in a non-word character. -/
def optsA : DecOpts := ⟨some "a", none⟩

/-- See `optsA`. -/
def optsB : DecOpts := ⟨some "a!", none⟩

/-- The cache state after resolving `p` on `tree3` with `optsA`. -/
def cacheC3 : Cache := [(buildCacheIndex "p" (some optsA), .vStr "av")]

/-- The resolution of `idx` returns normally for no amount of fuel: every run
either fails to complete or throws. -/
def neverReturns (tree : Value) (idx : String) : Prop :=
  ∀ (f : Nat) (v : Value), run tree f (.look idx) ≠ some (.ok v)

/-- The resolution of `idx` completes (returns or throws) for no amount of
fuel: the embedding of unbounded recursion. -/
def neverCompletes (tree : Value) (idx : String) : Prop :=
  ∀ f : Nat, run tree f (.look idx) = none

theorem truthy_eq_not_specFalsy (v : Value) : truthy v = !specFalsy v := by
  cases v <;> simp [truthy, specFalsy, bne]

theorem resolveValueGo_eq_spec (idx : String) :
    ∀ (segs : List (List Char)) (v : Value),
      resolveValueGo idx segs v = resolveValueSpecGo idx segs v := by
  intro segs
  induction segs with
  | nil => intro v; rfl
  | cons seg rest ih =>
    intro v
    simp only [resolveValueGo, resolveValueSpecGo]
    cases hj : jsIndex v (String.mk seg) with
    | none => rfl
    | some w =>
      cases hf : specFalsy w
      · simp [truthy_eq_not_specFalsy, hf, ih]
      · simp [truthy_eq_not_specFalsy, hf]

/-- Claim C6 (amended): `lookup`'s raw traversal walks the active tree one
dotted segment at a time from the root and throws a resolution error naming
the full path and the failing segment at the first segment whose value is
absent or falsy — where falsy means an empty string or the number 0; an empty
sequence (or empty object) is truthy and is returned, not an error — and
otherwise returns whatever value is stored at the path. -/
theorem c6_amended_thm : ∀ (tree : Value) (idx : String),
    resolveValue tree idx = resolveValueSpec tree idx :=
  fun tree idx => resolveValueGo_eq_spec idx (splitDot idx.data) tree

/-- Claim C6, counterexample: on `\x7ba: \x7bb: []\x7d\x7d` the path `a.b`
reaches an empty sequence, which the claim says is treated as not found and
throws; the code returns it (an empty array is truthy in JavaScript). -/
theorem c6_cex : resolveValue tree6 "a.b" = .ok (.vArr .nil) := rfl

theorem run_look_eq (tree : Value) (f : Nat) (idx : String) :
    run tree (f + 1) (.look idx) =
      (match resolveValue tree idx with
       | .error m => some (.error m)
       | .ok v => run tree f (.repl v)) := rfl

theorem run_repl_str (tree : Value) (f : Nat) (s : String) :
    run tree (f + 1) (.repl (.vStr s)) = run tree f (.scalar s) := rfl

theorem run_scalar_eq (tree : Value) (f : Nat) (s : String) :
    run tree (f + 1) (.scalar s) = run tree f (.loop loopSteps s) := rfl

theorem run_loop_succ (tree : Value) (f steps : Nat) (parsed : String) :
    run tree (f + 1) (.loop (steps + 1) parsed) =
      (match findPH parsed.data with
       | none => some (.ok (.vStr parsed))
       | some path =>
         match run tree f (.look (String.mk path)) with
         | none => none
         | some (.error m) => some (.error m)
         | some (.ok replace) =>
           run tree f (.loop steps
             (if truthy replace then
                String.mk (replaceAll (phToken path) (jsToString replace).data parsed.data)
              else parsed))) := rfl

theorem cyc_aux : ∀ f : Nat,
    run cycTree f (.look "a") = none ∧ run cycTree f (.look "b") = none := by
  intro f
  induction f using Nat.strong_induction_on with
  | _ f ih =>
    rcases f with _ | f
    · exact ⟨rfl, rfl⟩
    rcases f with _ | f
    · exact ⟨rfl, rfl⟩
    rcases f with _ | f
    · exact ⟨rfl, rfl⟩
    rcases f with _ | f
    · exact ⟨rfl, rfl⟩
    obtain ⟨ha, hb⟩ := ih f (by omega)
    refine ⟨?_, ?_⟩
    · have e : run cycTree (f + 4) (.look "a") =
          (match run cycTree f (.look "b") with
           | none => none
           | some (.error m) => some (.error m)
           | some (.ok replace) =>
             run cycTree f (.loop 20
               (if truthy replace then
                  String.mk (replaceAll (phToken ['b']) (jsToString replace).data
                    "$\x7bb\x7d".data)
                else "$\x7bb\x7d"))) := rfl
      rw [e, hb]
    · have e : run cycTree (f + 4) (.look "b") =
          (match run cycTree f (.look "a") with
           | none => none
           | some (.error m) => some (.error m)
           | some (.ok replace) =>
             run cycTree f (.loop 20
               (if truthy replace then
                  String.mk (replaceAll (phToken ['a']) (jsToString replace).data
                    "$\x7ba\x7d".data)
                else "$\x7ba\x7d"))) := rfl
      rw [e, ha]

/-- Claim C2, counterexample: on the cycle `\x7ba: "$\x7bb\x7d", b:
"$\x7ba\x7d"\x7d`, resolving `a` does not produce any outcome even with fuel
for a thousand calls, and indeed completes under no amount of fuel — so it
does not stop at the iteration bound with the unexpanded token, as the claim
states; it never returns at all. -/
theorem c2_cex :
    run cycTree 1000 (.look "a") = none ∧ neverCompletes cycTree "a" :=
  ⟨(cyc_aux 1000).1, fun f => (cyc_aux f).1⟩

/-- Claim C2 (amended): on the cycle `\x7ba: "$\x7bb\x7d", b: "$\x7ba\x7d"\x7d`
resolving either key diverges: the 20-pass bound only limits the `while` loop
of one scalar resolution, while every placeholder hop re-enters `lookup` with
a fresh counter, so the mutual recursion is unbounded (a stack overflow at
runtime) and no string is ever returned. -/
theorem c2_amended_thm : neverCompletes cycTree "a" ∧ neverCompletes cycTree "b" :=
  ⟨fun f => (cyc_aux f).1, fun f => (cyc_aux f).2⟩

/-- Claim C1 (amended): when a string value contains a placeholder token whose
target path fails to resolve, the `ResolutionError` thrown by the inner
`lookup` propagates unchanged out of the whole resolve call — `lookup` has no
catch, and the truthiness guard around the substitution never sees the miss.
The literal token is not left in an output string; there is no output. -/
theorem c1_amended_thm : ∀ (tree : Value) (idx s : String) (path : List Char)
    (m : String) (f : Nat),
    resolveValue tree idx = .ok (.vStr s) →
    findPH s.data = some path →
    resolveValue tree (String.mk path) = .error m →
    run tree (f + 5) (.look idx) = some (.error m) := by
  intro tree idx s path m f h1 h2 h3
  have hlook : run tree (f + 1) (.look (String.mk path)) = some (.error m) := by
    rw [run_look_eq, h3]
  rw [show (f + 5) = (f + 4) + 1 from rfl, run_look_eq, h1]
  show run tree (f + 2) (.loop loopSteps s) = some (.error m)
  rw [show loopSteps = 20 + 1 from rfl, show (f + 2) = (f + 1) + 1 from rfl,
    run_loop_succ, h2]
  show (match run tree (f + 1) (.look (String.mk path)) with
        | none => none
        | some (.error m) => some (.error m)
        | some (.ok replace) =>
          run tree (f + 1) (.loop 20
            (if truthy replace then
               String.mk (replaceAll (phToken path) (jsToString replace).data s.data)
             else s))) = some (.error m)
  rw [hlook]

/-- Claim C1, witness: on `\x7bb: "$\x7ba\x7d"\x7d` resolving `b` hits the
missing target `a` and the inner resolution error propagates out. -/
theorem c1_witness :
    run treeC1 5 (.look "b") = some (.error (resolutionErrorMsg "a" "a")) :=
  c1_amended_thm treeC1 "b" "$\x7ba\x7d" ['a'] (resolutionErrorMsg "a" "a") 0
    rfl rfl rfl

/-- Claim C1, counterexample: on `\x7bb: "$\x7ba\x7d"\x7d` (no key `a`),
resolving `b` does not skip the substitution and return the literal token —
it throws: at sufficient fuel the result is the propagated resolution error,
and no amount of fuel ever produces a returned value. -/
theorem c1_cex :
    lookup treeC1 9 "b" = some (.error (resolutionErrorMsg "a" "a")) ∧
    neverReturns treeC1 "b" := by
  constructor
  · rfl
  · intro f v h
    have hbig : ∀ k : Nat,
        run treeC1 (k + 5) (.look "b") =
          some (.error (resolutionErrorMsg "a" "a")) := fun k => rfl
    rcases Nat.lt_or_ge f 5 with h5 | h5
    · interval_cases f
      · exact Option.noConfusion h
      · exact Option.noConfusion h
      · exact Option.noConfusion h
      · exact Option.noConfusion h
      · exact Option.noConfusion h
    · obtain ⟨k, rfl⟩ : ∃ k, f = k + 5 := ⟨f - 5, by omega⟩
      rw [hbig k] at h
      simp at h

/-- Claim C7: `\x7ba: "foo", b: "prefix-$\x7ba\x7d-suffix"\x7d` resolves `b` to
`"prefix-foo-suffix"`; `\x7ba: "$\x7bb\x7d", b: "$\x7bc\x7d", c: "leaf"\x7d`
resolves `a` to `"leaf"`; and in general each match found by the scalar loop
is resolved by a recursive call into the full lookup pipeline whose (truthy)
result textually replaces every occurrence of that exact placeholder token in
the current string before the loop continues. -/
theorem c7_thm :
    lookup tree7a 10 "b" = some (.ok (.vStr "prefix-foo-suffix")) ∧
    lookup tree7b 16 "a" = some (.ok (.vStr "leaf")) ∧
    ∀ (tree : Value) (f steps : Nat) (parsed : String) (path : List Char)
      (r : Value),
      findPH parsed.data = some path →
      run tree f (.look (String.mk path)) = some (.ok r) →
      truthy r = true →
      run tree (f + 1) (.loop (steps + 1) parsed) =
        run tree f (.loop steps
          (String.mk (replaceAll (phToken path) (jsToString r).data parsed.data))) := by
  refine ⟨rfl, rfl, ?_⟩
  intro tree f steps parsed path r h1 h2 h3
  rw [run_loop_succ, h1]
  show (match run tree f (.look (String.mk path)) with
        | none => none
        | some (.error m) => some (.error m)
        | some (.ok replace) =>
          run tree f (.loop steps
            (if truthy replace then
               String.mk (replaceAll (phToken path) (jsToString replace).data parsed.data)
             else parsed))) =
      run tree f (.loop steps
        (String.mk (replaceAll (phToken path) (jsToString r).data parsed.data)))
  rw [h2]
  simp [h3]

/-- Claim C7, witness: the loop step on `"prefix-$\x7ba\x7d-suffix"` in
`tree7a` substitutes the recursively resolved `"foo"` for the token. -/
theorem c7_witness :
    run tree7a 6 (.loop 21 "prefix-$\x7ba\x7d-suffix") =
      run tree7a 5 (.loop 20 "prefix-foo-suffix") :=
  c7_thm.2.2 tree7a 5 20 "prefix-$\x7ba\x7d-suffix" ['a'] (.vStr "foo")
    rfl rfl rfl

theorem stripNonWord_append (a b : String) :
    stripNonWord (a ++ b) = stripNonWord a ++ stripNonWord b := by
  unfold stripNonWord
  rw [String.data_append, List.filter_append]
  rfl

/-- Claim C3 (amended): two cache keys for the same path coincide exactly when
the word-character projections of the serialized options coincide.  Distinct
DecorationOptions whose serialized forms differ only in non-word characters
(which `replace(/\W/g, '')` strips) therefore share one cache entry, and a
value decorated with one options object is returned for a request made with
the other. -/
theorem c3_amended_thm : ∀ (idx : String) (o1 o2 : Option DecOpts),
    buildCacheIndex idx o1 = buildCacheIndex idx o2 ↔
      stripNonWord (jsonOfOpt o1) = stripNonWord (jsonOfOpt o2) := by
  intro idx o1 o2
  unfold buildCacheIndex
  rw [stripNonWord_append, stripNonWord_append, stripNonWord_append,
    stripNonWord_append, stripNonWord_append, stripNonWord_append,
    stripNonWord_append, stripNonWord_append]
  constructor
  · intro h
    have hd := congrArg String.data h
    rw [String.data_append, String.data_append, String.data_append,
      String.data_append, String.data_append, String.data_append,
      String.data_append, String.data_append] at hd
    have h1 := List.append_cancel_left hd
    exact String.toList_inj.mp h1
  · intro h
    rw [h]

/-- Claim C3, counterexample: the distinct options `\x7bpre: "a"\x7d` and
`\x7bpre: "a!"\x7d` produce the same cache key for the same path, and the
value cached for the first is served for a request made with the second. -/
theorem c3_cex :
    optsA ≠ optsB ∧
    buildCacheIndex "p" (some optsA) = buildCacheIndex "p" (some optsB) ∧
    value tree3 [] 5 "" "p" (some optsA) = some (.ok (.vStr "av", cacheC3)) ∧
    value tree3 cacheC3 5 "" "p" (some optsB) = some (.ok (.vStr "av", cacheC3)) :=
  ⟨by decide, rfl, rfl, rfl⟩

theorem emergency_iff_both_fail (fsys : FileSys) (parse : String → Option Value)
    (file : String) :
    LogEvent.emergency ∈ (loadChain fsys parse file).logs ↔
      (readAndParseConfig fsys parse file = none ∧
       readAndParseConfig fsys parse configFileDefault = none) := by
  unfold loadChain loadConfigFile
  cases h1 : readAndParseConfig fsys parse file with
  | some cfg => simp
  | none =>
    cases h2 : readAndParseConfig fsys parse configFileDefault with
    | some cfg => simp
    | none => simp

/-- Claim C4 (amended): for a present primary path, `loadConfig` first calls
`fs.statSync` on it; if the stat itself throws (a missing path), that
exception escapes the load step — there is no recovery for this case.  When
the stat succeeds, no exception escapes: a non-regular file redirects to the
conventional default path, the chain then tries that effective file and, on
failure, the bundled default document, and the fatal emergency is logged
exactly when both attempted sources fail. -/
theorem c4_amended_thm : ∀ (fsys : FileSys) (parse : String → Option Value)
    (f : String),
    (fsys.stat f = none →
      loadConfig fsys parse (some f) =
        .error ("ENOENT: no such file or directory, stat " ++ jsonStringifyStr f)) ∧
    (∀ st : FileStat, fsys.stat f = some st →
      loadConfig fsys parse (some f) =
        .ok (loadChain fsys parse (effectiveFile f st)) ∧
      (LogEvent.emergency ∈ (loadChain fsys parse (effectiveFile f st)).logs ↔
        (readAndParseConfig fsys parse (effectiveFile f st) = none ∧
         readAndParseConfig fsys parse configFileDefault = none))) := by
  intro fsys parse f
  refine ⟨fun h => by simp [loadConfig, h], fun st h => ⟨?_, ?_⟩⟩
  · cases st <;> simp [loadConfig, h, effectiveFile]
  · exact emergency_iff_both_fail fsys parse (effectiveFile f st)

/-- Claim C4, witness: on a file system where every stat throws, loading a
primary path throws; on one where the path stats as a regular file whose read
then fails (as does the bundled default), the load returns and the emergency
is logged. -/
theorem c4_witness :
    loadConfig fsys0 parse0 (some "gulp.json") =
      .error ("ENOENT: no such file or directory, stat " ++
        jsonStringifyStr "gulp.json") ∧
    (loadConfig fsys1 parse0 (some "gulp.json") =
      .ok (loadChain fsys1 parse0 (effectiveFile "gulp.json" .isFile)) ∧
     (LogEvent.emergency ∈
        (loadChain fsys1 parse0 (effectiveFile "gulp.json" .isFile)).logs ↔
      (readAndParseConfig fsys1 parse0 (effectiveFile "gulp.json" .isFile) = none ∧
       readAndParseConfig fsys1 parse0 configFileDefault = none))) :=
  ⟨(c4_amended_thm fsys0 parse0 "gulp.json").1 rfl,
   (c4_amended_thm fsys1 parse0 "gulp.json").2 .isFile rfl⟩

/-- Claim C4, counterexample: a primary config path that is missing does not
recover locally — the stat guard throws before any fallback is attempted, and
the exception escapes the load step. -/
theorem c4_cex :
    loadConfig fsys0 parse0 (some "conf.json") =
      .error ("ENOENT: no such file or directory, stat " ++
        jsonStringifyStr "conf.json") := rfl

theorem buildGo_some_acc (tree : Value) (fuel : Nat) (ctx : String) :
    ∀ (idxs : List String) (cache : Cache) (s : String),
      buildGo tree fuel ctx cache (some s) idxs =
        Option.map (Except.map fun p => (some p.1, p.2))
          (concatResolved tree fuel ctx cache s idxs) := by
  intro idxs
  induction idxs with
  | nil => intro cache s; rfl
  | cons i rest ih =>
    intro cache s
    simp only [buildGo, concatResolved]
    cases hv : value tree cache fuel ctx i none with
    | none => rfl
    | some e =>
      cases e with
      | error m => rfl
      | ok p =>
        obtain ⟨v, c'⟩ := p
        simpa using ih c' (s ++ jsToString v)

theorem concatResolved_shift (tree : Value) (fuel : Nat) (ctx : String) :
    ∀ (idxs : List String) (cache : Cache) (a s : String),
      concatResolved tree fuel ctx cache (a ++ s) idxs =
        Option.map (Except.map fun p => (a ++ p.1, p.2))
          (concatResolved tree fuel ctx cache s idxs) := by
  intro idxs
  induction idxs with
  | nil => intro cache a s; rfl
  | cons i rest ih =>
    intro cache a s
    simp only [concatResolved]
    cases hv : value tree cache fuel ctx i none with
    | none => rfl
    | some e =>
      cases e with
      | error m => rfl
      | ok p =>
        obtain ⟨v, c'⟩ := p
        have := ih c' a (s ++ jsToString v)
        simpa [String.append_assoc] using this

/-- Claim C5: for every namespace and nonempty key list, `build` returns the
concatenation (with JavaScript string coercion) of the values resolved for
each key in order, accumulated onto an initially `undefined` value — so the
result string is exactly `"undefined"` prefixed to the concatenation that
would start from an empty accumulator. -/
theorem c5_thm : ∀ (tree : Value) (cache : Cache) (fuel : Nat) (ctx : String)
    (i : String) (rest : List String),
    build tree cache fuel ctx (i :: rest) =
      Option.map (Except.map fun p => (some ("undefined" ++ p.1), p.2))
        (concatResolved tree fuel ctx cache "" (i :: rest)) := by
  intro tree cache fuel ctx i rest
  simp only [build, buildGo, concatResolved]
  cases hv : value tree cache fuel ctx i none with
  | none => rfl
  | some e =>
    cases e with
    | error m => rfl
    | ok p =>
      obtain ⟨v, c'⟩ := p
      simp only
      have e1 : jsAdd none v = "undefined" ++ jsToString v := rfl
      rw [e1, buildGo_some_acc, String.empty_append, concatResolved_shift]
      cases hx : concatResolved tree fuel ctx c' (jsToString v) rest with
      | none => rfl
      | some e =>
        cases e with
        | error m => rfl
        | ok q => rfl

theorem isEmpty_false_of_ne (s : String) (h : s ≠ "") : s.isEmpty = false := by
  cases hh : s.isEmpty
  · rfl
  · exact absurd ((String.isEmpty_iff s).mp hh) h

theorem applyElems_get : ∀ (xs : VList) (opt : Option DecOpts) (n : Nat) (v : Value),
    vlistGet xs n = some v →
    vlistGet (applyOptionsOnElems xs opt) n =
      some (applyOptionsOnScalar (.vStr (jsToString v)) opt)
  | .nil, _, n, _, h => by cases n <;> exact Option.noConfusion h
  | .cons _ _, _, 0, _, h => by cases h; rfl
  | .cons _ tl, opt, n + 1, v, h => applyElems_get tl opt n v h

/-- Claim C8: decoration prepends a present truthy `pre` and appends a present
truthy `post` to a resolved scalar, and decorates each element of a resolved
sequence independently (each element being string-coerced first). -/
theorem c8_thm :
    (∀ (s pre post : String), pre ≠ "" → post ≠ "" →
      applyOptions (.vStr s) (some ⟨some pre, some post⟩) =
        .vStr (pre ++ s ++ post)) ∧
    (∀ (s pre : String), pre ≠ "" →
      applyOptions (.vStr s) (some ⟨some pre, none⟩) = .vStr (pre ++ s)) ∧
    (∀ (s post : String), post ≠ "" →
      applyOptions (.vStr s) (some ⟨none, some post⟩) = .vStr (s ++ post)) ∧
    (∀ (xs : VList) (opt : Option DecOpts) (n : Nat) (v : Value),
      vlistGet xs n = some v →
      vlistGet (applyOptionsOnElems xs opt) n =
        some (applyOptionsOnScalar (.vStr (jsToString v)) opt)) := by
  refine ⟨?_, ?_, ?_, applyElems_get⟩
  · intro s pre post hpre hpost
    have h1 : pre.isEmpty = false := isEmpty_false_of_ne pre hpre
    have h2 : post.isEmpty = false := isEmpty_false_of_ne post hpost
    simp [applyOptions, applyOptionsOnScalar, optPre, optPost, h1, h2, jsToString]
  · intro s pre hpre
    have h1 : pre.isEmpty = false := isEmpty_false_of_ne pre hpre
    simp [applyOptions, applyOptionsOnScalar, optPre, optPost, h1, jsToString]
  · intro s post hpost
    have h2 : post.isEmpty = false := isEmpty_false_of_ne post hpost
    simp [applyOptions, applyOptionsOnScalar, optPre, optPost, h2, jsToString]

/-- Claim C8, witness: `"mid"` with `\x7bpre: "[", post: "]"\x7d` yields
`"[mid]"`, pre-only and post-only decorate one side, and the second element of
`["a","b"]` is decorated independently to `"[b]"`. -/
theorem c8_witness :
    applyOptions (.vStr "mid") (some ⟨some "[", some "]"⟩) = .vStr "[mid]" ∧
    applyOptions (.vStr "mid") (some ⟨some "[", none⟩) = .vStr "[mid" ∧
    applyOptions (.vStr "mid") (some ⟨none, some "]"⟩) = .vStr "mid]" ∧
    vlistGet (applyOptionsOnElems (.cons (.vStr "a") (.cons (.vStr "b") .nil))
        (some ⟨some "[", some "]"⟩)) 1 =
      some (applyOptionsOnScalar (.vStr (jsToString (.vStr "b")))
        (some ⟨some "[", some "]"⟩)) :=
  ⟨c8_thm.1 "mid" "[" "]" (by decide) (by decide),
   c8_thm.2.1 "mid" "[" (by decide),
   c8_thm.2.2.1 "mid" "]" (by decide),
   c8_thm.2.2.2 (.cons (.vStr "a") (.cons (.vStr "b") .nil))
     (some ⟨some "[", some "]"⟩) 1 (.vStr "b") rfl⟩

/-- Claim C9: on `\x7ba: \x7bb: "x"\x7d\x7d` resolving `a.b` (context `a`, key
`b`, no options) returns `"x"` and caches it; a second resolution with the
same arguments returns the identical value and cache from the cache entry
alone — the result no longer depends on the underlying tree or on any fuel,
so the store is not touched. -/
theorem c9_thm :
    value tree9 [] 6 "a" "b" none = some (.ok (.vStr "x", cache9)) ∧
    ∀ (tree' : Value) (fuel' : Nat),
      value tree' cache9 fuel' "a" "b" none = some (.ok (.vStr "x", cache9)) :=
  ⟨rfl, fun _ _ => rfl⟩

/-- Claim C10: `ConfigFetcher.options` spreads and maps over the identifier
`idxs`, which neither its parameters (`idx`, `opt`) nor the module scope bind,
so every call throws a `ReferenceError` and never returns — unlike `globs`
(and the identically shaped `paths` and `files`), whose body maps over its own
rest parameter and returns the flattened per-index resolutions. -/
theorem c10_thm :
    (∀ (single : String → Value) (idx : String) (opt : Option DecOpts),
      fetcherOptions single idx opt = .referenceError "idxs") ∧
    ∀ (single : String → Value) (indexes : List String),
      fetcherGlobs single indexes = .value (jsConcatSpread (indexes.map single)) :=
  ⟨fun _ _ _ => rfl, fun _ _ => rfl⟩
